import Mathlib

/-!
Verification of the PyPortOpt optimizers module
(`src/PyPortOpt/Optimizers/optimizers.py`).

The numpy code is shallowly embedded over `ℚ`.  Matrices are lists of row
lists (`Mat`), mirroring numpy's dynamically shaped 2-d arrays; vectors are
`List ℚ`.  Two pieces of the pipeline call external numerical routines and
are modelled by parameters with their contracts stated as hypotheses:

* `numpy.linalg.eig` (inside `SymPDcovmatrix`) — the eigenvalue list and
  eigenvector matrix are passed as extra arguments `eigD`, `eigV`;
* the OSQP solver (`prob.setup` / `prob.solve`) — passed as a function
  `solve : QPData → List ℚ` returning the solution vector `res.x`;
* the float transcendentals `(x/100+1)**(1/250)` and `e**x` — passed as
  functions `toDaily`, `expFn`.

Lower solver bounds may be `-np.inf` (mean-variance return-target rows), so
the `l` vector of a QP lives in `WithBot ℚ` with `⊥` standing for `-∞`.
-/

namespace PyPortOpt

/-- Matrices as lists of rows, mirroring numpy 2-d arrays. -/
abbrev Mat := List (List ℚ)

/-- Dot product of two vectors (`np.dot` on 1-d arrays). -/
def dot (a b : List ℚ) : ℚ := (List.zipWith (· * ·) a b).sum

/-- Number of columns of a matrix (length of its first row). -/
def numCols (M : Mat) : ℕ := (M.headD []).length

/-- Column `j` of a matrix. -/
def colGet (M : Mat) (j : ℕ) : List ℚ := M.map (fun r => r.getD j 0)

/-- Matrix product (`np.dot` on 2-d arrays). -/
def matMul (A B : Mat) : Mat :=
  A.map (fun r => (List.range (numCols B)).map (fun j => dot r (colGet B j)))

/-- Matrix-vector product (`np.dot(A, x)`). -/
def matVec (A : Mat) (x : List ℚ) : List ℚ := A.map (fun r => dot r x)

/-- Row-vector times matrix (`np.dot(w, A)` with 1-d `w`). -/
def rowVecMat (w : List ℚ) (M : Mat) : List ℚ :=
  (List.range (numCols M)).map (fun j => dot w (colGet M j))

/-- Transpose (`A.transpose()`), for rectangular inputs. -/
def transposeM (M : Mat) : Mat :=
  (List.range (numCols M)).map (fun j => colGet M j)

/-- Elementwise matrix sum. -/
def matAdd (A B : Mat) : Mat := List.zipWith (List.zipWith (· + ·)) A B

/-- Scalar multiple of a matrix. -/
def matScale (c : ℚ) (A : Mat) : Mat := A.map (fun r => r.map (fun x => c * x))

/-- Square diagonal matrix from a vector (`np.diag(v)`). -/
def diagM (v : List ℚ) : Mat :=
  (List.range v.length).map (fun i =>
    (List.range v.length).map (fun j => if i = j then v.getD i 0 else 0))

/-- Rectangular identity (`np.eye(m, n)`): ones on the main diagonal. -/
def eyeM (m n : ℕ) : Mat :=
  (List.range m).map (fun i => (List.range n).map (fun j => if j = i then 1 else 0))

/-- Elementwise negation of a vector (`-v`). -/
def negV (v : List ℚ) : List ℚ := v.map (fun x => -x)

/-- Smallest entry of a vector (`min(v)` on a nonempty numpy vector). -/
def vecMin : List ℚ → ℚ
  | [] => 0
  | x :: xs => xs.foldl min x

/-- Largest entry of a vector (`max(v)`). -/
def vecMax : List ℚ → ℚ
  | [] => 0
  | x :: xs => xs.foldl max x

/-- Mean of a vector of length `n` (`np.mean`). -/
def vecMean (v : List ℚ) : ℚ := v.sum / (v.length : ℚ)

/-- Numpy truthiness of `arr.all()`: every entry nonzero. -/
def npAll (v : List ℚ) : Bool := v.all (fun x => x != 0)

/-- Python truthiness of the optional `assetsOrder` argument:
`None` and the empty list are falsy. -/
def aoTruthy (ao : Option (List ℕ)) : Bool := ao.elim false (fun l => !l.isEmpty)

/-- The underlying index list of an optional `assetsOrder`. -/
def aoList (ao : Option (List ℕ)) : List ℕ := ao.getD []

/-!  `SymPDcovmatrix` (source lines 66-100).  `eigD`, `eigV` stand for the
output `D, V = LA.eig(A)` computed on the symmetrized input; the eig
contract `V·diag(D)·Vᵀ = (A+Aᵀ)/2` is a hypothesis of the theorems using
this definition.  The source's `if not tol: tol = 1e-04` default fires on
Python-falsy `tol`, i.e. also on an explicit `tol = 0`. -/

/-- Embedding of `SymPDcovmatrix(A, tol)`: symmetrize, floor the
eigenvalues at `tol`, reconstruct, and return the corrected matrix together
with `e_min = max(tol, min(diag(D)))`. -/
def SymPDcovmatrix (A : Mat) (tol : ℚ) (eigD : List ℚ) (eigV : Mat) : Mat × ℚ :=
  let tol := if tol = 0 then 1 / 10000 else tol
  let Dfl := eigD.map (fun x => if x < tol then tol else x)
  let A1 := matMul (matMul eigV (diagM Dfl)) (transposeM eigV)
  let A2 := matScale (1 / 2) (matAdd A1 (transposeM A1))
  (A2, max tol (vecMin Dfl))

/-- Embedding of `sigMatShrinkage(sigMat, lambda_l2)` (source lines
103-134): the executed branch adds `lambda_l2 * mean(diag(sigMat))` times
the identity (the `sig**2` entries are the diagonal of `sigMat`; the
correlation computation feeding only the dead `else` branch is omitted). -/
def sigMatShrinkage (sigMat : Mat) (lambda_l2 : ℚ) : Mat :=
  let d := sigMat.length
  let diagVec := (List.range d).map (fun i => (sigMat.getD i []).getD i 0)
  matAdd sigMat (matScale (lambda_l2 * vecMean diagVec) (eyeM d d))

/-- The `k = 1` branch of `Dmat`: `np.eye(n-1, n)` with `D[i, i+1] = -1`
written pointwise. -/
def DmatOne (n : ℕ) : Mat :=
  (List.range (n - 1)).map (fun i =>
    (List.range n).map (fun j => if j = i then 1 else if j = i + 1 then -1 else 0))

/-- Embedding of `Dmat(n, k)` (source lines 137-161): identity for `k = 0`,
first-difference operator for `k = 1`, and for `k ≥ 2` the loop
`for i in range(k-1): D = Dmat(n-i-1, 1) @ D` started from `Dmat(n, 1)`. -/
def Dmat (n k : ℕ) : Mat :=
  if k = 0 then eyeM n n
  else if k = 1 then DmatOne n
  else (List.range (k - 1)).foldl (fun D i => matMul (DmatOne (n - i - 1)) D) (DmatOne n)

/-- Zero vector (`np.zeros(n)`). -/
def zerosV (n : ℕ) : List ℚ := List.replicate n 0

/-- All-ones vector (`np.ones(n)`). -/
def onesV (n : ℕ) : List ℚ := List.replicate n 1

/-- Row `i` of the `d × d` identity. -/
def unitRow (d i : ℕ) : List ℚ := (List.range d).map (fun j => if j = i then 1 else 0)

/-- Lift a rational vector into the `WithBot` bound type (no `-∞` entries). -/
def liftQ (v : List ℚ) : List (WithBot ℚ) := v.map (fun x => (x : WithBot ℚ))

/-- The standard-form QP handed to `prob.setup(P, q, A, l, u)`:
minimize `½xᵀPx + qᵀx` subject to `l ≤ Ax ≤ u`.  Entries of `l` may be
`⊥ = -np.inf`. -/
structure QPData where
  P : Mat
  q : List ℚ
  A : Mat
  l : List (WithBot ℚ)
  u : List ℚ
deriving DecidableEq, Repr

/-!  Embedding of `check_missing` (source lines 457-480) and the window
statistics of `rollingwindow_backtest` (lines 556-565).  Missing
observations (`NaN`) are `none`.  `check_missing` transposes, flags each
asset row, keeps the rows with `missing_flag == 1` and transposes back —
the returned frame therefore still carries the `missing_flag` column,
which after the final transpose is an extra row of ones below the kept
window rows. -/

/-- Embedding of `check_missing(df_logret)`: keep the columns (assets) with
no missing value and append the `missing_flag` row of ones that survives
the final transpose. -/
def check_missing (W : List (List (Option ℚ))) : Mat :=
  let keep := (List.range ((W.headD []).length)).filter
    (fun j => W.all (fun row => (row.getD j none).isSome))
  (W.map (fun row => keep.map (fun j => (row.getD j none).getD 0))) ++
    [List.replicate keep.length 1]

/-- Per-column means (`np.mean(M, axis=0)`). -/
def colMeans (M : Mat) : List ℚ :=
  (List.range (numCols M)).map (fun j => vecMean (colGet M j))

/-- Sample covariance (`np.cov(M, rowvar=False)`, denominator `m - 1`). -/
def sampleCov (M : Mat) : Mat :=
  let mu := colMeans M
  (List.range (numCols M)).map (fun j =>
    (List.range (numCols M)).map (fun k =>
      (M.map (fun row =>
        (row.getD j 0 - mu.getD j 0) * (row.getD k 0 - mu.getD k 0))).sum /
        ((M.length : ℚ) - 1)))

/-- Embedding of source lines 560-565: the window handed to the sample
statistics at rebalance index `i` is
`check_missing(df_logret[i - window_size : i] / 100)` truncated by
`.iloc[: n - 1]`, and the optimizer receives its sample covariance together
with the column means divided by a further 100. -/
def windowStats (df_logret : List (List (Option ℚ))) (n window_size i : ℕ) :
    Mat × List ℚ :=
  let window := check_missing
    (((df_logret.drop (i - window_size)).take window_size).map
      (fun row => row.map (Option.map (fun x => x / 100))))
  let logret_window := window.take (n - 1)
  (sampleCov logret_window, (colMeans logret_window).map (fun x => x / 100))

/-!  The two optimizers (source lines 164-296 and 299-454).  `cond`
abstracts `SymPDcovmatrix` applied with numpy's eigendecomposition at the
default tolerance; `solve` abstracts `osqp` (`prob.setup` + `prob.solve`,
returning `res.x`). -/

/-- Reorder `sigMat` by a truthy `assetsOrder`:
`sigMat[:, assetsOrder][assetsOrder, :]`. -/
def reorderSig (sigMat : Mat) (ao : Option (List ℕ)) : Mat :=
  if aoTruthy ao then
    (aoList ao).map (fun i => (aoList ao).map (fun j => (sigMat.getD i []).getD j 0))
  else sigMat

/-- Source lines 194-198: shrink when `lambda_l2` is truthy, then condition. -/
def conditionStep (cond : Mat → Mat × ℚ) (sigMat : Mat) (lambda_l2 : ℚ) : Mat × ℚ :=
  if lambda_l2 ≠ 0 then cond (sigMatShrinkage sigMat lambda_l2) else cond sigMat

/-- Equal-weight fallback vector `np.ones(d) / d`. -/
def equalWeight (d : ℕ) : List ℚ := List.replicate d (1 / (d : ℚ))

/-- The long-only (`longShort == 0`) minimum-variance QP (source lines
200-230): budget row, box rows, optional ordering rows, and
`q = -meanVec` where `meanVec = -lambda_l1 * ones(d)` when `lambda_l1` is
truthy (zero otherwise). -/
def minVarQPlo (sig2 : Mat) (d : ℕ) (maxAlloc lambda_l1 : ℚ) (ao : Bool) : QPData :=
  let Beq : ℚ := 1
  let LB := zerosV d
  let UB := List.replicate d maxAlloc
  let meanVec := if lambda_l1 ≠ 0 then List.replicate d (-lambda_l1) else zerosV d
  if ao then
    let A := (DmatOne d).map negV ++ [onesV d] ++ eyeM d d
    ⟨sig2, negV meanVec, A,
      liftQ (List.replicate (d - 1) (-1) ++ [Beq] ++ LB),
      zerosV (d - 1) ++ [Beq] ++ UB⟩
  else
    ⟨sig2, negV meanVec, [onesV d] ++ eyeM d d, liftQ ([Beq] ++ LB), [Beq] ++ UB⟩

/-- The long-short (`longShort != 0`) minimum-variance QP (source lines
237-281): exposure row `[0 1 0]`-blocks, optional ordering rows, equality
block `w - u + v = 0` and `1ᵀw = 1`, box rows, the augmented covariance
with the `∓0.1·e_min` diagonal perturbation, and `q = -meanvec3d`. -/
def minVarQPls (sig2 : Mat) (e_min : ℚ) (d : ℕ)
    (longShort maxAlloc lambda_l1 : ℚ) (ao : Bool) : QPData :=
  let A0 := zerosV d ++ onesV d ++ zerosV d
  let B0 := 1 + |longShort|
  let G := min |longShort| maxAlloc
  let Aineq := if ao then [A0] ++ (DmatOne d).map (fun r => negV r ++ zerosV (2 * d))
    else [A0]
  let Bineq := if ao then B0 :: zerosV (d - 1) else [B0]
  let Line : List (WithBot ℚ) := if ao then
    ((0 : ℚ) : WithBot ℚ) :: liftQ (List.replicate (d - 1) (-(1 + 2 * G)))
    else [((0 : ℚ) : WithBot ℚ)]
  let Aeq := (List.range d).map (fun i => unitRow d i ++ negV (unitRow d i) ++ unitRow d i)
    ++ [onesV d ++ zerosV d ++ zerosV d]
  let Beq := zerosV d ++ [1]
  let LB := List.replicate d (-G) ++ zerosV (2 * d)
  let UB := List.replicate (3 * d) maxAlloc
  let sigMat3d := (sig2.map (fun r => r ++ zerosV (2 * d))) ++
    List.replicate (2 * d) (zerosV (3 * d))
  let sigMat3dp := matAdd sigMat3d
    (diagM (List.replicate d (-(1 / 10) * e_min) ++ List.replicate (2 * d) ((1 / 10) * e_min)))
  let meanvec3d := if lambda_l1 ≠ 0 then zerosV d ++ List.replicate (2 * d) (-lambda_l1)
    else zerosV (3 * d)
  ⟨sigMat3dp, negV meanvec3d, Aineq ++ Aeq ++ eyeM (3 * d) (3 * d),
    Line ++ liftQ (Beq ++ LB), Bineq ++ Beq ++ UB⟩

/-- Lines 189-288 of `minimumVariancePortfolio`: reorder, condition, solve
the branch QP, and apply the `not w_opt.all()` equal-weight fallback.
Returns the pre-permutation weights and the conditioned covariance. -/
def minVarRaw (cond : Mat → Mat × ℚ) (solve : QPData → List ℚ) (sigMat : Mat)
    (longShort maxAlloc lambda_l1 lambda_l2 : ℚ) (ao : Option (List ℕ)) :
    List ℚ × Mat :=
  let d := sigMat.length
  let p := conditionStep cond (reorderSig sigMat ao) lambda_l2
  if longShort = 0 then
    let sol := solve (minVarQPlo p.1 d maxAlloc lambda_l1 (aoTruthy ao))
    (if npAll sol then sol else equalWeight d, p.1)
  else
    let sol := solve (minVarQPls p.1 p.2 d longShort maxAlloc lambda_l1 (aoTruthy ao))
    (if npAll sol then sol.take d else equalWeight d, p.1)

/-- Embedding of `minimumVariancePortfolio` (source lines 164-296): solve,
compute `Var_opt = w·Σ'·w` with the pre-permutation weights, then apply
`w_opt = w_opt[assetsOrder]` when `assetsOrder` is truthy. -/
def minimumVariancePortfolio (cond : Mat → Mat × ℚ) (solve : QPData → List ℚ)
    (sigMat : Mat) (longShort maxAlloc lambda_l1 lambda_l2 : ℚ)
    (ao : Option (List ℕ)) : List ℚ × ℚ :=
  let r := minVarRaw cond solve sigMat longShort maxAlloc lambda_l1 lambda_l2 ao
  let v := dot (rowVecMat r.1 r.2) r.1
  (if aoTruthy ao then (aoList ao).map (fun i => r.1.getD i 0) else r.1, v)

/-- Source lines 336-342: clamp the converted per-period target into
`[min(meanVec), max(meanVec)]`. -/
def clampTarget (meanVec : List ℚ) (t : ℚ) : ℚ :=
  let minE := vecMin meanVec
  let maxE := vecMax meanVec
  if t < minE ∨ maxE < t then max minE (min maxE t) else t

/-- The long-only mean-variance QP (source lines 355-387): return-target
row `-meanVec·w ≤ -tau` (lower bound `-np.inf`), optional ordering rows,
budget and box rows, and `q = -meanVec'` where
`meanVec' = -lambda_l1 * meanVec` when `lambda_l1` is truthy. -/
def mvprtQPlo (mv2 : List ℚ) (sig2 : Mat) (tau : ℚ) (d : ℕ)
    (maxAlloc lambda_l1 : ℚ) (ao : Bool) : QPData :=
  let Beq : ℚ := 1
  let LB := zerosV d
  let UB := List.replicate d maxAlloc
  let qsrc := if lambda_l1 ≠ 0 then mv2.map (fun x => -lambda_l1 * x) else zerosV d
  if ao then
    let A := [negV mv2] ++ (Dmat d 1).map negV ++ [onesV d] ++ eyeM d d
    ⟨sig2, negV qsrc, A,
      (⊥ : WithBot ℚ) :: liftQ (List.replicate (d - 1) (-1) ++ [Beq] ++ LB),
      [-tau] ++ zerosV (d - 1) ++ [Beq] ++ UB⟩
  else
    ⟨sig2, negV qsrc, [negV mv2] ++ [onesV d] ++ eyeM d d,
      (⊥ : WithBot ℚ) :: liftQ ([Beq] ++ LB), [-tau] ++ [Beq] ++ UB⟩

/-- The long-short mean-variance QP (source lines 394-440): exposure row,
return-target row, optional ordering rows, then the same equality/box/
augmented-covariance blocks as the long-short minimum-variance QP. -/
def mvprtQPls (mv2 : List ℚ) (sig2 : Mat) (tau e_min : ℚ) (d : ℕ)
    (longShort maxAlloc lambda_l1 : ℚ) (ao : Bool) : QPData :=
  let A0 := zerosV d ++ onesV d ++ zerosV d
  let B0 := 1 + |longShort|
  let G := min |longShort| maxAlloc
  let retRow := negV mv2 ++ zerosV (2 * d)
  let Aineq := if ao then
    [A0, retRow] ++ (Dmat d 1).map (fun r => negV r ++ zerosV (2 * d))
    else [A0, retRow]
  let Bineq := if ao then [B0, -tau] ++ zerosV (d - 1) else [B0, -tau]
  let Line : List (WithBot ℚ) := if ao then
    [((0 : ℚ) : WithBot ℚ), ⊥] ++ liftQ (List.replicate (d - 1) (-(1 + 2 * G)))
    else [((0 : ℚ) : WithBot ℚ), ⊥]
  let Aeq := (List.range d).map (fun i => unitRow d i ++ negV (unitRow d i) ++ unitRow d i)
    ++ [onesV d ++ zerosV d ++ zerosV d]
  let Beq := zerosV d ++ [1]
  let LB := List.replicate d (-G) ++ zerosV (2 * d)
  let UB := List.replicate (3 * d) maxAlloc
  let sigMat3d := (sig2.map (fun r => r ++ zerosV (2 * d))) ++
    List.replicate (2 * d) (zerosV (3 * d))
  let sigMat3dp := matAdd sigMat3d
    (diagM (List.replicate d (-(1 / 10) * e_min) ++ List.replicate (2 * d) ((1 / 10) * e_min)))
  let meanvec3d := if lambda_l1 ≠ 0 then zerosV d ++ List.replicate (2 * d) (-lambda_l1)
    else zerosV (3 * d)
  ⟨sigMat3dp, negV meanvec3d, Aineq ++ Aeq ++ eyeM (3 * d) (3 * d),
    Line ++ liftQ (Beq ++ LB), Bineq ++ Beq ++ UB⟩

/-- Lines 344-447 of `meanVariancePortfolioReturnsTarget` given the already
clamped per-period target `tau`: reorder, condition, solve the branch QP,
apply the `not w_opt.all()` fallback. -/
def mvprtRaw (cond : Mat → Mat × ℚ) (solve : QPData → List ℚ)
    (meanVec : List ℚ) (sigMat : Mat) (tau longShort maxAlloc lambda_l1 lambda_l2 : ℚ)
    (ao : Option (List ℕ)) : List ℚ × Mat :=
  let d := sigMat.length
  let mv2 := if aoTruthy ao then (aoList ao).map (fun i => meanVec.getD i 0) else meanVec
  let p := conditionStep cond (reorderSig sigMat ao) lambda_l2
  if longShort = 0 then
    let sol := solve (mvprtQPlo mv2 p.1 tau d maxAlloc lambda_l1 (aoTruthy ao))
    (if npAll sol then sol else equalWeight d, p.1)
  else
    let sol := solve (mvprtQPls mv2 p.1 tau p.2 d longShort maxAlloc lambda_l1 (aoTruthy ao))
    (if npAll sol then sol.take d else equalWeight d, p.1)

/-- Body of `meanVariancePortfolioReturnsTarget` from the clamped target on:
variance with pre-permutation weights, then `w_opt = w_opt[assetsOrder]`. -/
def mvprtWithTau (cond : Mat → Mat × ℚ) (solve : QPData → List ℚ)
    (meanVec : List ℚ) (sigMat : Mat) (tau longShort maxAlloc lambda_l1 lambda_l2 : ℚ)
    (ao : Option (List ℕ)) : List ℚ × ℚ :=
  let r := mvprtRaw cond solve meanVec sigMat tau longShort maxAlloc lambda_l1 lambda_l2 ao
  let v := dot (rowVecMat r.1 r.2) r.1
  (if aoTruthy ao then (aoList ao).map (fun i => r.1.getD i 0) else r.1, v)

/-- Embedding of `meanVariancePortfolioReturnsTarget` (source lines
299-454).  `toDaily` abstracts the float conversion
`100 * ((retTarget/100 + 1) ** (1/250) - 1)` of line 336; its output is
clamped by lines 339-342 and the rest of the function depends on the
target only through the clamped value. -/
def meanVariancePortfolioReturnsTarget (toDaily : ℚ → ℚ) (cond : Mat → Mat × ℚ)
    (solve : QPData → List ℚ) (meanVec : List ℚ) (sigMat : Mat)
    (retTarget longShort maxAlloc lambda_l1 lambda_l2 : ℚ)
    (ao : Option (List ℕ)) : List ℚ × ℚ :=
  mvprtWithTau cond solve meanVec sigMat (clampTarget meanVec (toDaily retTarget))
    longShort maxAlloc lambda_l1 lambda_l2 ao

/-!  The optimizer invocations of `rollingwindow_backtest` (source lines
567-585).  Both calls are positional:
`minimumVariancePortfolio(sigMat, float(maxAlloc), float(longShort),
float(lambda_l1), float(lambda_l2))` and
`meanVariancePortfolioReturnsTarget(meanVec, sigMat, float(retTarget),
float(maxAlloc), float(longShort), float(lambda_l1), float(lambda_l2))`,
so the backtest's `maxAlloc` lands in the optimizer's `longShort`
parameter and vice versa, and `assetsOrder` is left at its default. -/

/-- The backtest's call of `minimumVariancePortfolio` (lines 568-574),
with the caller's arguments in the source's positional order. -/
def backtestCallMinVar (cond : Mat → Mat × ℚ) (solve : QPData → List ℚ)
    (sigMat : Mat) (maxAlloc longShort lambda_l1 lambda_l2 : ℚ) : List ℚ × ℚ :=
  minimumVariancePortfolio cond solve sigMat maxAlloc longShort lambda_l1 lambda_l2 none

/-- The backtest's call of `meanVariancePortfolioReturnsTarget` (lines
577-585), with the caller's arguments in the source's positional order. -/
def backtestCallMVPRT (toDaily : ℚ → ℚ) (cond : Mat → Mat × ℚ)
    (solve : QPData → List ℚ) (meanVec : List ℚ) (sigMat : Mat)
    (retTarget maxAlloc longShort lambda_l1 lambda_l2 : ℚ) : List ℚ × ℚ :=
  meanVariancePortfolioReturnsTarget toDaily cond solve meanVec sigMat
    retTarget maxAlloc longShort lambda_l1 lambda_l2 none

/-!  The rolling-window backtest skeleton (source lines 542-614).  The
per-window weight computation (window statistics, optimizer call and the
scatter of `w_sample` onto the full universe, lines 557-593) is abstracted
as `wOf : ℕ → List ℚ` giving the full-universe weight vector solved at
rebalance index `i`; `expFn` abstracts the float `math.exp(1) ** x`. -/

/-- Python `range(start, stop, step)` as a list. -/
def pyRange (stop step start : ℕ) : List ℕ :=
  if _h : start < stop ∧ 0 < step then start :: pyRange stop step (start + step) else []
termination_by stop - start
decreasing_by omega

/-- Embedding of `np.nan_to_num(row, nan=0)`. -/
def nanToNum (row : List (Option ℚ)) : List ℚ := row.map (fun o => o.getD 0)

/-- One iteration of the realized-return accumulation (source lines
600-612): convert the held-out log-return rows to simple returns and
append this window's portfolio returns to `R`.  The final partial window
reuses `R` via `np.hstack`; reaching it with `R` still unset produces an
unusable object array in numpy, modelled here as `none`. -/
def btStep (expFn : ℚ → ℚ) (wOf : ℕ → List ℚ) (logret : List (List (Option ℚ)))
    (dstep : ℕ) (R : Option (List ℚ)) (i : ℕ) : Option (List ℚ) :=
  let n := logret.length
  let seg := if i + dstep < n then (logret.drop i).take dstep else logret.drop i
  let simple := seg.map (fun row => (nanToNum row).map (fun x => 100 * (expFn (x / 100) - 1)))
  let contrib := simple.map (fun srow => dot (wOf i) srow)
  if i + dstep < n then some (R.getD [] ++ contrib) else R.map (fun r => r ++ contrib)

/-- The vector of realized portfolio returns contributed by rebalance index
`i` (the dot products computed inside `btStep`). -/
def contribAt (expFn : ℚ → ℚ) (wOf : ℕ → List ℚ) (logret : List (List (Option ℚ)))
    (dstep i : ℕ) : List ℚ :=
  ((if i + dstep < logret.length then (logret.drop i).take dstep else logret.drop i).map
    (fun row => dot (wOf i) ((nanToNum row).map (fun x => 100 * (expFn (x / 100) - 1)))))

/-- Embedding of the `rollingwindow_backtest` output skeleton: the realized
return series `R`, the per-rebalance weight rows `w_all`, and the date
vector `rownames = df1.index[start + 1 :]` (the pivoted date index has one
more row than the log-return matrix). -/
def rollingwindow_backtest {α : Type} (expFn : ℚ → ℚ) (wOf : ℕ → List ℚ)
    (dates : List α) (logret : List (List (Option ℚ)))
    (window_size rebalance_time : ℕ) :
    Option (List ℚ) × List (List ℚ) × List α :=
  let idx := pyRange logret.length rebalance_time window_size
  (idx.foldl (btStep expFn wOf logret rebalance_time) none,
   idx.map wOf,
   dates.drop (window_size + 1))

/-- Inverse-permutation comparator written from the spec's words for claim
C6: entry `j` of the returned vector should be the weight of original
asset `j`, i.e. the solved weight at the position where `assetsOrder`
placed asset `j`. -/
def specInversePermute (ord : List ℕ) (w : List ℚ) : List ℚ :=
  (List.range w.length).map (fun j => w.getD (List.indexOf j ord) 0)

/-!  General lemmas about the embedding. -/

lemma eyeM_length (m n : ℕ) : (eyeM m n).length = m := by
  simp [eyeM]

lemma eyeM_row_length (m n : ℕ) : ∀ r ∈ eyeM m n, r.length = n := by
  intro r hr
  simp only [eyeM, List.mem_map] at hr
  obtain ⟨i, -, rfl⟩ := hr
  simp

lemma DmatOne_length (n : ℕ) : (DmatOne n).length = n - 1 := by
  simp [DmatOne]

lemma DmatOne_row_length (n : ℕ) : ∀ r ∈ DmatOne n, r.length = n := by
  intro r hr
  simp only [DmatOne, List.mem_map] at hr
  obtain ⟨i, -, rfl⟩ := hr
  simp

lemma matMul_length (A B : Mat) : (matMul A B).length = A.length := by
  simp [matMul]

lemma matMul_row_length (A B : Mat) : ∀ r ∈ matMul A B, r.length = numCols B := by
  intro r hr
  simp only [matMul, List.mem_map] at hr
  obtain ⟨s, -, rfl⟩ := hr
  simp

lemma numCols_eq_of_rows (B : Mat) (n : ℕ) (hne : B ≠ [])
    (hrow : ∀ r ∈ B, r.length = n) : numCols B = n := by
  cases B with
  | nil => exact absurd rfl hne
  | cons r B => exact hrow r (List.mem_cons_self r B)

/-- Specialization `Dmat n 1 = DmatOne n`, the explicit first-difference operator. -/
lemma Dmat_one (n : ℕ) : Dmat n 1 = DmatOne n := by
  simp [Dmat]

/-- The `k ≥ 2` loop of `Dmat` satisfies the left-composition recurrence
`Dmat(n, k) = Dmat(n-(k-1), 1) · Dmat(n, k-1)`. -/
lemma Dmat_rec (n k : ℕ) (hk : 2 ≤ k) :
    Dmat n k = matMul (DmatOne (n - (k - 1))) (Dmat n (k - 1)) := by
  obtain ⟨j, rfl⟩ : ∃ j, k = j + 2 := ⟨k - 2, by omega⟩
  have h0 : j + 2 ≠ 0 := by omega
  have h1 : j + 2 ≠ 1 := by omega
  rw [show Dmat n (j + 2) =
      (List.range (j + 1)).foldl (fun D i => matMul (DmatOne (n - i - 1)) D) (DmatOne n) by
    simp [Dmat, h0, h1]]
  rw [List.range_succ, List.foldl_append]
  have hj : j + 2 - 1 = j + 1 := by omega
  rw [hj]
  have hsub : n - j - 1 = n - (j + 1) := by omega
  cases j with
  | zero => simp [Dmat]
  | succ m =>
    have g0 : m + 2 ≠ 0 := by omega
    have g1 : m + 2 ≠ 1 := by omega
    simp only [List.foldl_cons, List.foldl_nil]
    rw [show Dmat n (m + 2) =
        (List.range (m + 1)).foldl (fun D i => matMul (DmatOne (n - i - 1)) D) (DmatOne n) by
      simp [Dmat, g0, g1]]
    rfl

/-- Shape of `Dmat n k` for `1 ≤ k ≤ n`: `(n - k) × n`. -/
lemma Dmat_shape (k n : ℕ) (hk : 1 ≤ k) (hkn : k ≤ n) :
    (Dmat n k).length = n - k ∧ ∀ r ∈ Dmat n k, r.length = n := by
  induction k with
  | zero => omega
  | succ j ih =>
    cases Nat.eq_or_lt_of_le hk with
    | inl h =>
      obtain rfl : j = 0 := by omega
      rw [Dmat_one]
      exact ⟨DmatOne_length n, DmatOne_row_length n⟩
    | inr h =>
      have hj1 : 1 ≤ j := by omega
      have hjn : j ≤ n := by omega
      have hrec := Dmat_rec n (j + 1) (by omega)
      have hsucc : j + 1 - 1 = j := by omega
      rw [hsucc] at hrec
      obtain ⟨ihlen, ihrow⟩ := ih hj1 hjn
      have hBne : Dmat n j ≠ [] := by
        intro hnil
        rw [hnil] at ihlen
        simp at ihlen
        omega
      have hcols : numCols (Dmat n j) = n := numCols_eq_of_rows _ n hBne ihrow
      constructor
      · rw [hrec, matMul_length, DmatOne_length]
        omega
      · intro r hr
        rw [hrec] at hr
        have := matMul_row_length (DmatOne (n - j)) (Dmat n j) r hr
        rw [hcols] at this
        exact this

/-- C9: `Dmat(n, 0)` is the `n × n` identity; `Dmat(n, 1)` is the
`(n-1) × n` first-difference operator, sending a 3-vector to its adjacent
differences; and for `k > 1` (with `k ≤ n`), `Dmat(n, k)` composes a
first-difference operator of smaller dimension with `Dmat(n, k-1)` and has
shape `(n - k) × n`. -/
theorem Dmat_difference_matrix (n k : ℕ) (x0 x1 x2 : ℚ) :
    ((Dmat n 0).length = n ∧ (∀ r ∈ Dmat n 0, r.length = n) ∧
      ∀ i j, i < n → j < n →
        ((Dmat n 0).getD i []).getD j 0 = if i = j then 1 else 0) ∧
    (2 ≤ n →
      (Dmat n 1).length = n - 1 ∧ (∀ r ∈ Dmat n 1, r.length = n) ∧
      ∀ i j, i < n - 1 → j < n →
        ((Dmat n 1).getD i []).getD j 0 =
          if j = i then 1 else if j = i + 1 then -1 else 0) ∧
    (matVec (Dmat 3 1) [x0, x1, x2] = [x0 - x1, x1 - x2]) ∧
    (1 < k → k ≤ n →
      Dmat n k = matMul (Dmat (n - (k - 1)) 1) (Dmat n (k - 1)) ∧
      (Dmat n k).length = n - k ∧ ∀ r ∈ Dmat n k, r.length = n) := by
  refine ⟨⟨?_, ?_, ?_⟩, fun _ => ⟨?_, ?_, ?_⟩, ?_, fun hk hkn => ⟨?_, ?_⟩⟩
  · simp [Dmat, eyeM]
  · intro r hr
    rw [show Dmat n 0 = eyeM n n by simp [Dmat]] at hr
    exact eyeM_row_length n n r hr
  · intro i j hi hj
    rw [show Dmat n 0 = eyeM n n by simp [Dmat]]
    have h1 : (eyeM n n).getD i [] = (List.range n).map (fun j => if j = i then 1 else 0) := by
      unfold eyeM
      rw [List.getD_eq_getElem _ _ (by simpa using hi), List.getElem_map, List.getElem_range]
    rw [h1, List.getD_eq_getElem _ _ (by simpa using hj), List.getElem_map, List.getElem_range]
    by_cases h : i = j <;> simp [h]
    exact fun h2 => h h2.symm
  · rw [Dmat_one]; exact DmatOne_length n
  · rw [Dmat_one]; exact DmatOne_row_length n
  · intro i j hi hj
    rw [Dmat_one]
    have h1 : (DmatOne n).getD i [] =
        (List.range n).map (fun j => if j = i then 1 else if j = i + 1 then -1 else 0) := by
      unfold DmatOne
      rw [List.getD_eq_getElem _ _ (by simpa using hi), List.getElem_map, List.getElem_range]
    rw [h1, List.getD_eq_getElem _ _ (by simpa using hj), List.getElem_map, List.getElem_range]
  · rw [Dmat_one]
    show matVec [[1, -1, 0], [0, 1, -1]] [x0, x1, x2] = [x0 - x1, x1 - x2]
    simp [matVec, dot]
    constructor <;> ring
  · rw [Dmat_one]; exact Dmat_rec n k (by omega)
  · exact Dmat_shape k n (by omega) hkn

/-- C9 witness: the theorem instantiated at `n = 5`, `k = 3` and a concrete
3-vector. -/
theorem Dmat_difference_matrix_witness :
    (Dmat 5 3).length = 5 - 3 ∧
    matVec (Dmat 3 1) [(10 : ℚ), 3, 1] = [10 - 3, 3 - 1] := by
  refine ⟨((Dmat_difference_matrix 5 3 0 0 0).2.2.2 (by omega) (by omega)).2.1, ?_⟩
  exact (Dmat_difference_matrix 5 3 10 3 1).2.2.1

lemma half_add_self_row (r : List ℚ) :
    (List.zipWith (· + ·) r r).map (fun x => (1 / 2 : ℚ) * x) = r := by
  induction r with
  | nil => rfl
  | cons x r ih =>
    simp only [List.zipWith_cons_cons, List.map_cons, ih]
    congr 1
    ring

lemma half_add_self_mat (M : Mat) : matScale (1 / 2) (matAdd M M) = M := by
  induction M with
  | nil => rfl
  | cons r M ih =>
    simp only [matAdd, matScale, List.zipWith_cons_cons, List.map_cons] at ih ⊢
    rw [half_add_self_row, ih]

/-- C8 counterexample: with the Python-falsy tolerance `tol = 0` the source
replaces `tol` by the default `1e-4`, so the symmetric positive-definite
1×1 matrix `[[1/20000]]` (eigenvalue `1/20000 > 0 = tol`, eigendecomposed
by `V = [[1]]`, `D = [1/20000]`) is not returned unchanged and `e_min`
differs from `max(tol, smallest eigenvalue)`. -/
theorem SymPDcovmatrix_tol_zero_counterexample :
    transposeM [[(1 : ℚ) / 20000]] = [[(1 : ℚ) / 20000]] ∧
    matMul (matMul [[1]] (diagM [(1 : ℚ) / 20000])) (transposeM [[1]]) =
      [[(1 : ℚ) / 20000]] ∧
    (∀ x ∈ [(1 : ℚ) / 20000], (0 : ℚ) < x) ∧
    SymPDcovmatrix [[(1 : ℚ) / 20000]] 0 [(1 : ℚ) / 20000] [[1]] =
      ([[(1 : ℚ) / 10000]], 1 / 10000) ∧
    SymPDcovmatrix [[(1 : ℚ) / 20000]] 0 [(1 : ℚ) / 20000] [[1]] ≠
      ([[(1 : ℚ) / 20000]], max 0 (vecMin [(1 : ℚ) / 20000])) := by
  norm_num [SymPDcovmatrix, matMul, matAdd, matScale, transposeM, numCols, colGet, diagM,
    dot, vecMin, List.range_succ, Prod.ext_iff]

/-- C8 amended: for every nonzero `tol` and every symmetric `A` whose
eigendecomposition `A = V·diag(D)·Vᵀ` has all eigenvalues above `tol`,
`SymPDcovmatrix` returns `A` unchanged together with
`e_min = max(tol, smallest eigenvalue)`. -/
theorem SymPDcovmatrix_identity_on_PD (A V : Mat) (D : List ℚ) (tol : ℚ)
    (htol : tol ≠ 0) (hsym : transposeM A = A)
    (heig : matMul (matMul V (diagM D)) (transposeM V) = A)
    (hD : ∀ x ∈ D, tol < x) :
    SymPDcovmatrix A tol D V = (A, max tol (vecMin D)) := by
  have hfl : D.map (fun x => if x < tol then tol else x) = D := by
    have h : ∀ x ∈ D, (if x < tol then tol else x) = x :=
      fun x hx => if_neg (not_lt.mpr (le_of_lt (hD x hx)))
    rw [List.map_congr_left h, List.map_id']
  simp only [SymPDcovmatrix, if_neg htol, hfl, heig, hsym, half_add_self_mat]

/-- C8 witness: the amended theorem applied to the diagonal matrix
`diag(2, 3)` with `tol = 1e-4`. -/
theorem SymPDcovmatrix_identity_on_PD_witness :
    SymPDcovmatrix [[2, 0], [0, 3]] (1 / 10000) [2, 3] [[1, 0], [0, 1]] =
      ([[2, 0], [0, 3]], max (1 / 10000) (vecMin [2, 3])) :=
  SymPDcovmatrix_identity_on_PD [[2, 0], [0, 3]] [[1, 0], [0, 1]] [2, 3] (1 / 10000)
    (by norm_num)
    (by norm_num [transposeM, numCols, colGet, List.range_succ])
    (by norm_num [matMul, transposeM, numCols, colGet, diagM, dot, List.range_succ])
    (by norm_num)

/-- C5 counterexample: in the long-only minimum-variance QP with
`lambda_l1 = 1` and `d = 1`, the `q` handed to the solver is `[+1]`, not
the claimed `-lambda_l1 · 𝟙 = [-1]`. -/
theorem minVarQPlo_objective_counterexample :
    (minVarQPlo [[1]] 1 1 1 false).q = [1] ∧
    (minVarQPlo [[1]] 1 1 1 false).q ≠ [(-1 : ℚ)] := by
  norm_num [minVarQPlo, negV, zerosV]

/-- C5 amended: the linear objective handed to the solver in the long-only
minimum-variance formulation is `q = +lambda_l1 · 𝟙` when an L1 penalty is
requested (`setup` receives `-meanVec` with `meanVec = -lambda_l1·𝟙`), and
the zero vector when `lambda_l1 = 0`. -/
theorem minVarQPlo_objective (sig2 : Mat) (d : ℕ) (ma l1 : ℚ) (ao : Bool) :
    (minVarQPlo sig2 d ma l1 ao).q = List.replicate d l1 := by
  by_cases h : l1 = 0 <;>
    cases ao <;>
    simp [minVarQPlo, negV, zerosV, List.map_replicate, h]

/-- C4 counterexample: for `d = 1`, `longShort = 1`, neither long-short
constraint system contains a row proportional to `[0 | 1 | 1]` (zero on the
`w` block, equal nonzero weight on both auxiliary blocks), i.e. no row
bounds `𝟙ᵀ(u+v)`. -/
theorem longShort_exposure_row_counterexample :
    (∀ r ∈ (minVarQPls [[1]] 1 1 1 1 0 false).A,
      ¬(r.getD 0 0 = 0 ∧ r.getD 1 0 = r.getD 2 0 ∧ r.getD 1 0 ≠ 0)) ∧
    (∀ r ∈ (mvprtQPls [5] [[1]] (1 / 2) 1 1 1 1 0 false).A,
      ¬(r.getD 0 0 = 0 ∧ r.getD 1 0 = r.getD 2 0 ∧ r.getD 1 0 ≠ 0)) := by
  norm_num [minVarQPls, mvprtQPls, zerosV, onesV, negV, unitRow, eyeM, DmatOne, Dmat,
    liftQ, List.range_succ]

/-- C4 amended: in every long-short constraint system of either optimizer,
row 0 is the exposure row `[0,…,0 | 1,…,1 | 0,…,0]` bounding `𝟙ᵀu` (the
first auxiliary block alone, not `𝟙ᵀ(u+v)`) below by 0 and above by
`1 + |longShort|`. -/
theorem longShort_exposure_row (sig2 : Mat) (mv2 : List ℚ) (em tau ls ma l1 : ℚ)
    (d : ℕ) (ao : Bool) :
    ((minVarQPls sig2 em d ls ma l1 ao).A.getD 0 [] = zerosV d ++ onesV d ++ zerosV d ∧
     (minVarQPls sig2 em d ls ma l1 ao).u.getD 0 0 = 1 + |ls| ∧
     (minVarQPls sig2 em d ls ma l1 ao).l.getD 0 ⊥ = ((0 : ℚ) : WithBot ℚ)) ∧
    ((mvprtQPls mv2 sig2 tau em d ls ma l1 ao).A.getD 0 [] = zerosV d ++ onesV d ++ zerosV d ∧
     (mvprtQPls mv2 sig2 tau em d ls ma l1 ao).u.getD 0 0 = 1 + |ls| ∧
     (mvprtQPls mv2 sig2 tau em d ls ma l1 ao).l.getD 0 ⊥ = ((0 : ℚ) : WithBot ℚ)) := by
  cases ao <;> simp [minVarQPls, mvprtQPls, liftQ]

lemma npAll_eq_true_iff (v : List ℚ) : npAll v = true ↔ (0 : ℚ) ∉ v := by
  unfold npAll
  rw [List.all_eq_true]
  constructor
  · intro h h0
    simpa using h 0 h0
  · intro h x hx
    have hne : x ≠ 0 := fun hx0 => h (hx0 ▸ hx)
    simpa using hne

lemma npAll_false_of_mem {v : List ℚ} (h : (0 : ℚ) ∈ v) : npAll v = false := by
  cases hb : npAll v with
  | false => rfl
  | true => exact absurd h ((npAll_eq_true_iff v).mp hb)

lemma npAll_true_of_not_mem {v : List ℚ} (h : (0 : ℚ) ∉ v) : npAll v = true :=
  (npAll_eq_true_iff v).mpr h

/-- C2 counterexample: a solver solution `[0, 3/4]` has a nonzero entry,
yet `not w_opt.all()` is true (one entry is zero) and the equal-weight
vector is substituted for it. -/
theorem fallback_counterexample :
    (minimumVariancePortfolio (fun M => (M, 1)) (fun _ => [0, 3 / 4])
      [[1, 0], [0, 1]] 0 1 0 0 none).1 = [1 / 2, 1 / 2] ∧
    (minimumVariancePortfolio (fun M => (M, 1)) (fun _ => [0, 3 / 4])
      [[1, 0], [0, 1]] 0 1 0 0 none).1 ≠ [0, 3 / 4] ∧
    (3 / 4 : ℚ) ≠ 0 := by
  norm_num [minimumVariancePortfolio, minVarRaw, reorderSig, aoTruthy, conditionStep,
    npAll, equalWeight, List.replicate]

/-- C2 amended: in both optimizers the equal-weight vector is substituted
for the solver's solution exactly when the solution has at least one zero
entry (numpy's `not w_opt.all()`); a solution with every entry nonzero is
used as the weight vector (its first `d` entries in the long-short case). -/
theorem fallback_on_any_zero_entry
    (cond : Mat → Mat × ℚ) (solve : QPData → List ℚ) (sigMat : Mat)
    (meanVec : List ℚ) (tau ls ma l1 l2 : ℚ) :
    ((ls = 0 →
      ((0 : ℚ) ∈ solve (minVarQPlo (conditionStep cond sigMat l2).1 sigMat.length ma l1 false) →
        (minimumVariancePortfolio cond solve sigMat ls ma l1 l2 none).1 =
          equalWeight sigMat.length) ∧
      ((0 : ℚ) ∉ solve (minVarQPlo (conditionStep cond sigMat l2).1 sigMat.length ma l1 false) →
        (minimumVariancePortfolio cond solve sigMat ls ma l1 l2 none).1 =
          solve (minVarQPlo (conditionStep cond sigMat l2).1 sigMat.length ma l1 false))) ∧
     (ls ≠ 0 →
      ((0 : ℚ) ∈ solve (minVarQPls (conditionStep cond sigMat l2).1
          (conditionStep cond sigMat l2).2 sigMat.length ls ma l1 false) →
        (minimumVariancePortfolio cond solve sigMat ls ma l1 l2 none).1 =
          equalWeight sigMat.length) ∧
      ((0 : ℚ) ∉ solve (minVarQPls (conditionStep cond sigMat l2).1
          (conditionStep cond sigMat l2).2 sigMat.length ls ma l1 false) →
        (minimumVariancePortfolio cond solve sigMat ls ma l1 l2 none).1 =
          (solve (minVarQPls (conditionStep cond sigMat l2).1
            (conditionStep cond sigMat l2).2 sigMat.length ls ma l1 false)).take sigMat.length))) ∧
    ((ls = 0 →
      ((0 : ℚ) ∈ solve (mvprtQPlo meanVec (conditionStep cond sigMat l2).1 tau sigMat.length ma l1 false) →
        (mvprtWithTau cond solve meanVec sigMat tau ls ma l1 l2 none).1 =
          equalWeight sigMat.length) ∧
      ((0 : ℚ) ∉ solve (mvprtQPlo meanVec (conditionStep cond sigMat l2).1 tau sigMat.length ma l1 false) →
        (mvprtWithTau cond solve meanVec sigMat tau ls ma l1 l2 none).1 =
          solve (mvprtQPlo meanVec (conditionStep cond sigMat l2).1 tau sigMat.length ma l1 false))) ∧
     (ls ≠ 0 →
      ((0 : ℚ) ∈ solve (mvprtQPls meanVec (conditionStep cond sigMat l2).1 tau
          (conditionStep cond sigMat l2).2 sigMat.length ls ma l1 false) →
        (mvprtWithTau cond solve meanVec sigMat tau ls ma l1 l2 none).1 =
          equalWeight sigMat.length) ∧
      ((0 : ℚ) ∉ solve (mvprtQPls meanVec (conditionStep cond sigMat l2).1 tau
          (conditionStep cond sigMat l2).2 sigMat.length ls ma l1 false) →
        (mvprtWithTau cond solve meanVec sigMat tau ls ma l1 l2 none).1 =
          (solve (mvprtQPls meanVec (conditionStep cond sigMat l2).1 tau
            (conditionStep cond sigMat l2).2 sigMat.length ls ma l1 false)).take sigMat.length))) := by
  refine ⟨⟨fun hls => ⟨fun hmem => ?_, fun hmem => ?_⟩, fun hls => ⟨fun hmem => ?_, fun hmem => ?_⟩⟩,
    ⟨fun hls => ⟨fun hmem => ?_, fun hmem => ?_⟩, fun hls => ⟨fun hmem => ?_, fun hmem => ?_⟩⟩⟩
  · subst hls
    simp [minimumVariancePortfolio, minVarRaw, reorderSig, aoTruthy, npAll_false_of_mem hmem]
  · subst hls
    simp [minimumVariancePortfolio, minVarRaw, reorderSig, aoTruthy, npAll_true_of_not_mem hmem]
  · simp [minimumVariancePortfolio, minVarRaw, reorderSig, aoTruthy, npAll_false_of_mem hmem, hls]
  · simp [minimumVariancePortfolio, minVarRaw, reorderSig, aoTruthy, npAll_true_of_not_mem hmem, hls]
  · subst hls
    simp [mvprtWithTau, mvprtRaw, reorderSig, aoTruthy, npAll_false_of_mem hmem]
  · subst hls
    simp [mvprtWithTau, mvprtRaw, reorderSig, aoTruthy, npAll_true_of_not_mem hmem]
  · simp [mvprtWithTau, mvprtRaw, reorderSig, aoTruthy, npAll_false_of_mem hmem, hls]
  · simp [mvprtWithTau, mvprtRaw, reorderSig, aoTruthy, npAll_true_of_not_mem hmem, hls]

/-- C2 witness: the amended theorem at a concrete long-only instance whose
solver returns `[0, 3/4]`. -/
theorem fallback_on_any_zero_entry_witness :
    (minimumVariancePortfolio (fun M => (M, 1)) (fun _ => [0, 3 / 4])
      [[1, 0], [0, 1]] 0 1 0 0 none).1 = equalWeight ([[(1 : ℚ), 0], [0, 1]]).length :=
  (((fallback_on_any_zero_entry (fun M => (M, 1)) (fun _ => [0, 3 / 4])
    [[1, 0], [0, 1]] [] 0 0 1 0 0).1.1 rfl).1 (by norm_num))

/-- C6 counterexample: with the 3-cycle `assetsOrder = [1, 2, 0]` and a
solver solution `[1/5, 3/10, 1/2]`, the returned vector is the solution
permuted by `assetsOrder` itself, which differs from the solution permuted
back to original asset order. -/
theorem assetsOrder_counterexample :
    (minimumVariancePortfolio (fun M => (M, 1)) (fun _ => [1 / 5, 3 / 10, 1 / 2])
      (eyeM 3 3) 0 1 0 0 (some [1, 2, 0])).1 = [3 / 10, 1 / 2, 1 / 5] ∧
    specInversePermute [1, 2, 0] [1 / 5, 3 / 10, 1 / 2] = [1 / 2, 1 / 5, 3 / 10] ∧
    (minimumVariancePortfolio (fun M => (M, 1)) (fun _ => [1 / 5, 3 / 10, 1 / 2])
      (eyeM 3 3) 0 1 0 0 (some [1, 2, 0])).1 ≠
      specInversePermute [1, 2, 0] [1 / 5, 3 / 10, 1 / 2] := by
  norm_num [minimumVariancePortfolio, minVarRaw, reorderSig, aoTruthy, aoList, conditionStep,
    npAll, specInversePermute, List.indexOf, List.findIdx, List.findIdx.go, eyeM,
    List.range_succ, Bool.cond_eq_ite]

/-- C6 amended: when a truthy `assetsOrder` is supplied, entry `j` of the
returned weight vector is the solved weight at position `assetsOrder[j]`
(the same permutation applied again, not its inverse), for both
optimizers. -/
theorem assetsOrder_applied_not_inverted
    (cond : Mat → Mat × ℚ) (solve : QPData → List ℚ) (sigMat : Mat)
    (meanVec : List ℚ) (tau ls ma l1 l2 : ℚ) (ord : List ℕ)
    (hord : ord ≠ []) (j : ℕ) (hj : j < ord.length) :
    ((minimumVariancePortfolio cond solve sigMat ls ma l1 l2 (some ord)).1).getD j 0 =
      (minVarRaw cond solve sigMat ls ma l1 l2 (some ord)).1.getD (ord.getD j 0) 0 ∧
    ((mvprtWithTau cond solve meanVec sigMat tau ls ma l1 l2 (some ord)).1).getD j 0 =
      (mvprtRaw cond solve meanVec sigMat tau ls ma l1 l2 (some ord)).1.getD (ord.getD j 0) 0 := by
  have ht : aoTruthy (some ord) = true := by
    cases ord with
    | nil => exact absurd rfl hord
    | cons a l => simp [aoTruthy]
  constructor
  · simp only [minimumVariancePortfolio, ht, if_true, aoList, Option.getD_some]
    rw [List.getD_eq_getElem _ 0 (by simpa using hj), List.getElem_map,
      show ord[j] = ord.getD j 0 from (List.getD_eq_getElem ord 0 hj).symm]
  · simp only [mvprtWithTau, ht, if_true, aoList, Option.getD_some]
    rw [List.getD_eq_getElem _ 0 (by simpa using hj), List.getElem_map,
      show ord[j] = ord.getD j 0 from (List.getD_eq_getElem ord 0 hj).symm]

/-- C6 witness: the amended theorem at the 3-cycle `[1, 2, 0]`, entry 0. -/
theorem assetsOrder_applied_not_inverted_witness :
    ((minimumVariancePortfolio (fun M => (M, 1)) (fun _ => [1 / 5, 3 / 10, 1 / 2])
      (eyeM 3 3) 0 1 0 0 (some [1, 2, 0])).1).getD 0 0 =
      (minVarRaw (fun M => (M, 1)) (fun _ => [1 / 5, 3 / 10, 1 / 2])
        (eyeM 3 3) 0 1 0 0 (some [1, 2, 0])).1.getD ([1, 2, 0].getD 0 0) 0 :=
  (assetsOrder_applied_not_inverted (fun M => (M, 1)) (fun _ => [1 / 5, 3 / 10, 1 / 2])
    (eyeM 3 3) [] 0 0 1 0 0 [1, 2, 0] (by simp) 0 (by norm_num)).1

lemma foldl_min_le (x : ℚ) (xs : List ℚ) : xs.foldl min x ≤ x := by
  induction xs generalizing x with
  | nil => simp
  | cons b l ih => exact le_trans (ih (min x b)) (min_le_left x b)

lemma le_foldl_max (x : ℚ) (xs : List ℚ) : x ≤ xs.foldl max x := by
  induction xs generalizing x with
  | nil => simp
  | cons b l ih => exact le_trans (le_max_left x b) (ih (max x b))

lemma vecMin_le_vecMax {v : List ℚ} (h : v ≠ []) : vecMin v ≤ vecMax v := by
  cases v with
  | nil => exact absurd rfl h
  | cons x xs => exact le_trans (foldl_min_le x xs) (le_foldl_max x xs)

lemma clampTarget_gt_max {v : List ℚ} (h : v ≠ []) {t : ℚ} (ht : vecMax v < t) :
    clampTarget v t = vecMax v := by
  unfold clampTarget
  rw [if_pos (Or.inr ht), min_eq_left (le_of_lt ht), max_eq_right (vecMin_le_vecMax h)]

lemma clampTarget_at_max {v : List ℚ} (h : v ≠ []) :
    clampTarget v (vecMax v) = vecMax v := by
  unfold clampTarget
  rw [if_neg]
  rintro (h1 | h2)
  · exact absurd h1 (not_lt.mpr (vecMin_le_vecMax h))
  · exact lt_irrefl _ h2

lemma clampTarget_lt_min {v : List ℚ} (h : v ≠ []) {t : ℚ} (ht : t < vecMin v) :
    clampTarget v t = vecMin v := by
  unfold clampTarget
  rw [if_pos (Or.inl ht),
    min_eq_right (le_of_lt (lt_of_lt_of_le ht (vecMin_le_vecMax h))),
    max_eq_left (le_of_lt ht)]

lemma clampTarget_at_min {v : List ℚ} (h : v ≠ []) :
    clampTarget v (vecMin v) = vecMin v := by
  unfold clampTarget
  rw [if_neg]
  rintro (h1 | h2)
  · exact lt_irrefl _ h1
  · exact absurd h2 (not_lt.mpr (vecMin_le_vecMax h))

/-- C7: a return target whose converted per-period value exceeds
`max(meanVec)` produces exactly the output of a target converting to
`max(meanVec)`, and a target converting below `min(meanVec)` produces
exactly the output of a target converting to `min(meanVec)`, all other
arguments equal. -/
theorem mvprt_target_clamping (toDaily : ℚ → ℚ) (cond : Mat → Mat × ℚ)
    (solve : QPData → List ℚ) (meanVec : List ℚ) (sigMat : Mat)
    (rHi rMax rLo rMin ls ma l1 l2 : ℚ) (ao : Option (List ℕ))
    (hne : meanVec ≠ [])
    (hHi : vecMax meanVec < toDaily rHi) (hMax : toDaily rMax = vecMax meanVec)
    (hLo : toDaily rLo < vecMin meanVec) (hMin : toDaily rMin = vecMin meanVec) :
    meanVariancePortfolioReturnsTarget toDaily cond solve meanVec sigMat rHi ls ma l1 l2 ao =
      meanVariancePortfolioReturnsTarget toDaily cond solve meanVec sigMat rMax ls ma l1 l2 ao ∧
    meanVariancePortfolioReturnsTarget toDaily cond solve meanVec sigMat rLo ls ma l1 l2 ao =
      meanVariancePortfolioReturnsTarget toDaily cond solve meanVec sigMat rMin ls ma l1 l2 ao := by
  unfold meanVariancePortfolioReturnsTarget
  constructor
  · rw [clampTarget_gt_max hne hHi, hMax, clampTarget_at_max hne]
  · rw [clampTarget_lt_min hne hLo, hMin, clampTarget_at_min hne]

/-- C7 witness: the theorem at `meanVec = [0, 1]` with the identity
conversion, targets `2 → 1` (high side) and `-1 → 0` (low side). -/
theorem mvprt_target_clamping_witness :
    meanVariancePortfolioReturnsTarget id (fun M => (M, 1)) (fun _ => [1])
      [0, 1] [[1, 0], [0, 1]] 2 0 1 0 0 none =
      meanVariancePortfolioReturnsTarget id (fun M => (M, 1)) (fun _ => [1])
        [0, 1] [[1, 0], [0, 1]] 1 0 1 0 0 none ∧
    meanVariancePortfolioReturnsTarget id (fun M => (M, 1)) (fun _ => [1])
      [0, 1] [[1, 0], [0, 1]] (-1) 0 1 0 0 none =
      meanVariancePortfolioReturnsTarget id (fun M => (M, 1)) (fun _ => [1])
        [0, 1] [[1, 0], [0, 1]] 0 0 1 0 0 none :=
  mvprt_target_clamping id (fun M => (M, 1)) (fun _ => [1]) [0, 1] [[1, 0], [0, 1]]
    2 1 (-1) 0 0 1 0 0 none (by simp)
    (by norm_num [vecMax]) (by norm_num [vecMax])
    (by norm_num [vecMin]) (by norm_num [vecMin])

/-- C1: evaluation at the failing input.  With a probe solver returning the
length of the `q` it receives, the backtest's positional call with
`maxAlloc = 1`, `longShort = 0` behaves exactly like an optimizer call with
`longShort = 1`, `maxAlloc = 0` (the long-short QP in `3d = 6` variables)
and differs from the claimed same-named binding `longShort = 0`,
`maxAlloc = 1` (the long-only QP in `d = 2` variables), for both
objectives. -/
theorem backtest_swapped_binding :
    backtestCallMinVar (fun M => (M, 1)) (fun qp => [(qp.q.length : ℚ)])
        [[1, 0], [0, 1]] 1 0 0 0 =
      minimumVariancePortfolio (fun M => (M, 1)) (fun qp => [(qp.q.length : ℚ)])
        [[1, 0], [0, 1]] 1 0 0 0 none ∧
    (backtestCallMinVar (fun M => (M, 1)) (fun qp => [(qp.q.length : ℚ)])
      [[1, 0], [0, 1]] 1 0 0 0).1 = [6] ∧
    (minimumVariancePortfolio (fun M => (M, 1)) (fun qp => [(qp.q.length : ℚ)])
      [[1, 0], [0, 1]] 0 1 0 0 none).1 = [2] ∧
    (backtestCallMVPRT id (fun M => (M, 1)) (fun qp => [(qp.q.length : ℚ)])
      [0, 0] [[1, 0], [0, 1]] 0 1 0 0 0).1 = [6] ∧
    (meanVariancePortfolioReturnsTarget id (fun M => (M, 1)) (fun qp => [(qp.q.length : ℚ)])
      [0, 0] [[1, 0], [0, 1]] 0 0 1 0 0 none).1 = [2] ∧
    ([6] : List ℚ) ≠ [2] := by
  refine ⟨rfl, ?_, ?_, ?_, ?_, by norm_num⟩ <;>
    norm_num [backtestCallMinVar, backtestCallMVPRT, minimumVariancePortfolio,
      meanVariancePortfolioReturnsTarget, mvprtWithTau, minVarRaw, mvprtRaw, reorderSig,
      aoTruthy, conditionStep, npAll, minVarQPlo, minVarQPls, mvprtQPlo, mvprtQPls,
      clampTarget, vecMin, vecMax, negV, zerosV, onesV, liftQ, unitRow, eyeM, DmatOne,
      diagM, matAdd, List.range_succ]

/-- C3: evaluation at the failing input.  For the 2-asset log-return matrix
`[[1,10],[2,20],[3,30],[4,40]]` (percent scale, `n = 4`), at rebalance
index `i = 2` with `window_size = 2`, the window handed to the sample
statistics has 3 rows — the two trailing observations (divided by 100)
plus the `missing_flag` row `[1, 1]` — and the resulting mean vector is
`[103/30000, 13/3000]`, which differs from the plain per-asset average of
the two window observations (`3/200` in the window's units, `3/2` in
percent). -/
theorem windowStats_flag_row_and_rescaling :
    ((check_missing ((([[some (1 : ℚ), some 10], [some 2, some 20], [some 3, some 30],
        [some 4, some 40]].drop (2 - 2)).take 2).map
        (fun row => row.map (Option.map (fun x => x / 100))))).take (4 - 1)) =
      [[1 / 100, 1 / 10], [1 / 50, 1 / 5], [1, 1]] ∧
    (windowStats [[some (1 : ℚ), some 10], [some 2, some 20], [some 3, some 30],
        [some 4, some 40]] 4 2 2).2 = [103 / 30000, 13 / 3000] ∧
    ((103 : ℚ) / 30000 ≠ ((1 : ℚ) / 100 + 1 / 50) / 2) ∧
    ((103 : ℚ) / 30000 ≠ ((1 : ℚ) + 2) / 2) := by
  refine ⟨?_, ?_, by norm_num, by norm_num⟩ <;>
    norm_num [windowStats, check_missing, colMeans, colGet, vecMean, numCols,
      List.range_succ, List.filter, List.replicate]

lemma pyRange_unfold (stop step start : ℕ) :
    pyRange stop step start =
      if start < stop ∧ 0 < step then start :: pyRange stop step (start + step) else [] := by
  rw [pyRange]
  simp

lemma pyRange_len_aux :
    ∀ (fuel stop step start : ℕ), stop - start ≤ fuel → 0 < step → start < stop →
      (pyRange stop step start).length = (stop - start + step - 1) / step := by
  intro fuel
  induction fuel with
  | zero => intro stop step start hf hs hlt; omega
  | succ f ih =>
    intro stop step start hf hs hlt
    rw [pyRange_unfold, if_pos ⟨hlt, hs⟩, List.length_cons]
    by_cases h2 : start + step < stop
    · rw [ih stop step (start + step) (by omega) hs h2]
      have e1 : stop - start + step - 1 = (stop - (start + step) + step - 1) + step := by omega
      rw [e1, Nat.add_div_right _ hs]
    · rw [pyRange_unfold, if_neg (by omega)]
      rw [Nat.div_eq_of_lt_le (show 1 * step ≤ stop - start + step - 1 by omega)
        (show stop - start + step - 1 < (1 + 1) * step by omega)]
      simp

lemma pyRange_length (stop step start : ℕ) (hs : 0 < step) (h : start < stop) :
    (pyRange stop step start).length = (stop - start + step - 1) / step :=
  pyRange_len_aux (stop - start) stop step start le_rfl hs h

lemma btStep_some (expFn : ℚ → ℚ) (wOf : ℕ → List ℚ) (logret : List (List (Option ℚ)))
    (dstep : ℕ) (acc : List ℚ) (i : ℕ) :
    btStep expFn wOf logret dstep (some acc) i =
      some (acc ++ contribAt expFn wOf logret dstep i) := by
  unfold btStep contribAt
  by_cases h : i + dstep < logret.length <;> simp [h, List.map_map, Function.comp_def]

lemma btStep_none (expFn : ℚ → ℚ) (wOf : ℕ → List ℚ) (logret : List (List (Option ℚ)))
    (dstep : ℕ) (i : ℕ) (h : i + dstep < logret.length) :
    btStep expFn wOf logret dstep none i =
      some (contribAt expFn wOf logret dstep i) := by
  unfold btStep contribAt
  simp [h, List.map_map, Function.comp_def]

lemma contribAt_length_lt (expFn : ℚ → ℚ) (wOf : ℕ → List ℚ)
    (logret : List (List (Option ℚ))) (dstep i : ℕ) (h : i + dstep < logret.length) :
    (contribAt expFn wOf logret dstep i).length = dstep := by
  unfold contribAt
  rw [if_pos h]
  simp
  omega

lemma contribAt_length_ge (expFn : ℚ → ℚ) (wOf : ℕ → List ℚ)
    (logret : List (List (Option ℚ))) (dstep i : ℕ) (h : ¬(i + dstep < logret.length)) :
    (contribAt expFn wOf logret dstep i).length = logret.length - i := by
  unfold contribAt
  rw [if_neg h]
  simp

lemma btFold_length (expFn : ℚ → ℚ) (wOf : ℕ → List ℚ) (logret : List (List (Option ℚ)))
    (dstep : ℕ) (hd : 0 < dstep) :
    ∀ (fuel start : ℕ) (acc : List ℚ), logret.length - start ≤ fuel →
      start < logret.length →
      ∃ r, (pyRange logret.length dstep start).foldl
          (btStep expFn wOf logret dstep) (some acc) = some r ∧
        r.length = acc.length + (logret.length - start) := by
  intro fuel
  induction fuel with
  | zero => intro start acc hf hlt; omega
  | succ f ih =>
    intro start acc hf hlt
    rw [pyRange_unfold, if_pos ⟨hlt, hd⟩, List.foldl_cons, btStep_some]
    by_cases h2 : start + dstep < logret.length
    · obtain ⟨r, hr, hlen⟩ := ih (start + dstep) (acc ++ contribAt expFn wOf logret dstep start)
        (by omega) h2
      refine ⟨r, hr, ?_⟩
      rw [hlen, List.length_append, contribAt_length_lt _ _ _ _ _ h2]
      omega
    · rw [pyRange_unfold, if_neg (by omega), List.foldl_nil]
      refine ⟨_, rfl, ?_⟩
      rw [List.length_append, contribAt_length_ge _ _ _ _ _ h2]

/-- C10: when `window_size + rebalance_time < n` (with `n` the number of
log-return rows) and `rebalance_time ≥ 1`, the realized-return series has
length exactly `n - window_size`, the returned date vector has the same
length, and the weight history has one row per rebalance point, i.e.
`⌈(n - window_size) / rebalance_time⌉` rows. -/
theorem rollingwindow_backtest_output_lengths {α : Type} (expFn : ℚ → ℚ)
    (wOf : ℕ → List ℚ) (dates : List α) (logret : List (List (Option ℚ)))
    (window_size rebalance_time : ℕ)
    (hrt : 0 < rebalance_time) (hwin : window_size + rebalance_time < logret.length)
    (hdates : dates.length = logret.length + 1) :
    (∃ r, (rollingwindow_backtest expFn wOf dates logret window_size rebalance_time).1 =
        some r ∧ r.length = logret.length - window_size) ∧
    (rollingwindow_backtest expFn wOf dates logret window_size rebalance_time).2.2.length =
      logret.length - window_size ∧
    (rollingwindow_backtest expFn wOf dates logret window_size rebalance_time).2.1.length =
      (logret.length - window_size + rebalance_time - 1) / rebalance_time := by
  have hstart : window_size < logret.length := by omega
  refine ⟨?_, ?_, ?_⟩
  · show ∃ r, (pyRange logret.length rebalance_time window_size).foldl
        (btStep expFn wOf logret rebalance_time) none = some r ∧
      r.length = logret.length - window_size
    rw [pyRange_unfold, if_pos ⟨hstart, hrt⟩, List.foldl_cons,
      btStep_none _ _ _ _ _ hwin]
    obtain ⟨r, hr, hlen⟩ := btFold_length expFn wOf logret rebalance_time hrt
      (logret.length - (window_size + rebalance_time))
      (window_size + rebalance_time)
      (contribAt expFn wOf logret rebalance_time window_size) le_rfl hwin
    refine ⟨r, hr, ?_⟩
    rw [hlen, contribAt_length_lt _ _ _ _ _ hwin]
    omega
  · show (dates.drop (window_size + 1)).length = logret.length - window_size
    rw [List.length_drop, hdates]
    omega
  · show ((pyRange logret.length rebalance_time window_size).map wOf).length =
      (logret.length - window_size + rebalance_time - 1) / rebalance_time
    rw [List.length_map, pyRange_length _ _ _ hrt hstart]

/-- C10 witness: three log-return rows, `window_size = 1`,
`rebalance_time = 1`, four dates. -/
theorem rollingwindow_backtest_output_lengths_witness :
    (∃ r, (rollingwindow_backtest id (fun _ => [1]) [0, 1, 2, 3]
        [[some 1], [some 2], [some 3]] 1 1).1 = some r ∧
      r.length = [[some (1 : ℚ)], [some 2], [some 3]].length - 1) ∧
    (rollingwindow_backtest id (fun _ => [1]) [0, 1, 2, 3]
      [[some 1], [some 2], [some 3]] 1 1).2.2.length =
      [[some (1 : ℚ)], [some 2], [some 3]].length - 1 ∧
    (rollingwindow_backtest id (fun _ => [1]) [0, 1, 2, 3]
      [[some 1], [some 2], [some 3]] 1 1).2.1.length =
      ([[some (1 : ℚ)], [some 2], [some 3]].length - 1 + 1 - 1) / 1 :=
  rollingwindow_backtest_output_lengths id (fun _ => [1]) [0, 1, 2, 3]
    [[some 1], [some 2], [some 3]] 1 1 (by norm_num) (by norm_num) (by norm_num)

end PyPortOpt
